import Mathlib

/-!
Verification of the cookie service of `ngx-cookie-ssr`
(`projects/ng-cookie/src/lib/ng-cookie.service.ts`).

JavaScript strings are modelled as `List Char` (Lean `Char` is a Unicode
scalar value; `encodeURIComponent` throws on lone surrogates, which are
therefore outside the model).  JavaScript numbers that the code feeds into
date arithmetic are modelled as `Int`.  `Date.prototype.toUTCString` is a
platform builtin, modelled as an uninterpreted formatting parameter
`fmt : Int → Str` applied to the date's millisecond timestamp.
-/

/-- JavaScript string, as a list of Unicode scalar values. -/
abbrev Str := List Char

/-- Shorthand taking a Lean string literal to the `Str` model. -/
def str (s : String) : Str := s.data

/-! ### Percent encoding (`encodeURIComponent`, a platform builtin used by the
service for names and values). -/

/-- Characters `encodeURIComponent` leaves unescaped:
`A-Z a-z 0-9 - _ . ! ~ * ' ( )`. -/
def isUnreserved (c : Char) : Bool :=
  c.isAlpha || c.isDigit ||
    (c = '-' || c = '_' || c = '.' || c = '!' || c = '~' || c = '*' ||
     c = '\'' || c = '(' || c = ')')

/-- Uppercase hexadecimal digit, as emitted by `encodeURIComponent`. -/
def hexDigitChar (n : Nat) : Char :=
  if n < 10 then Char.ofNat (48 + n) else Char.ofNat (55 + n)

/-- UTF-8 bytes of a scalar value (how `encodeURIComponent` encodes a
non-unreserved character before escaping each byte). -/
def utf8Bytes (c : Char) : List Nat :=
  let n := c.toNat
  if n < 0x80 then [n]
  else if n < 0x800 then [0xC0 + n / 64, 0x80 + n % 64]
  else if n < 0x10000 then
    [0xE0 + n / 4096, 0x80 + n / 64 % 64, 0x80 + n % 64]
  else
    [0xF0 + n / 262144, 0x80 + n / 4096 % 64, 0x80 + n / 64 % 64,
     0x80 + n % 64]

/-- One `%XY` escape for a byte. -/
def encByte (b : Nat) : Str :=
  ['%', hexDigitChar (b / 16), hexDigitChar (b % 16)]

/-- Encoding of a single character under `encodeURIComponent`. -/
def encChar (c : Char) : Str :=
  if isUnreserved c then [c] else (utf8Bytes c).flatMap encByte

/-- Model of the platform builtin `encodeURIComponent`. -/
def encodeURIComponent (s : Str) : Str := s.flatMap encChar

/-! ### Percent decoding (`decodeURIComponent`, the platform builtin wrapped
by `safeDecodeURIComponent`).  The ECMA-262 `Decode` algorithm: a `%` must be
followed by two hex digits; a lead byte with the high bit set must begin a
well-formed, shortest-form UTF-8 sequence whose continuation bytes are also
percent escapes; anything else throws `URIError`, modelled as `none`. -/

/-- Value of one hexadecimal digit (both cases accepted, as in ECMA-262). -/
def hexVal? (c : Char) : Option Nat :=
  if '0' ≤ c ∧ c ≤ '9' then some (c.toNat - 48)
  else if 'A' ≤ c ∧ c ≤ 'F' then some (c.toNat - 55)
  else if 'a' ≤ c ∧ c ≤ 'f' then some (c.toNat - 87)
  else none

/-- Parses one escaped UTF-8 continuation byte `%XY` with `0x80 ≤ XY < 0xC0`;
returns its 6 payload bits and the rest of the input. -/
def contByte? : Str → Option (Nat × Str)
  | '%' :: c1 :: c2 :: r =>
    match hexVal? c1, hexVal? c2 with
    | some h, some lo =>
      let b := 16 * h + lo
      if 0x80 ≤ b ∧ b < 0xC0 then some (b - 0x80, r) else none
    | _, _ => none
  | _ => none

/-- Decodes one character of the input: either a literal (non-`%`) character,
or one complete percent-escaped UTF-8 sequence. -/
def decodeStep : Str → Option (Char × Str)
  | [] => none
  | c :: rest =>
    if c = '%' then
      match rest with
      | c1 :: c2 :: r =>
        match hexVal? c1, hexVal? c2 with
        | some h, some lo =>
          let b := 16 * h + lo
          if b < 0x80 then some (Char.ofNat b, r)
          else if b < 0xC2 then none
          else if b < 0xE0 then
            match contByte? r with
            | some (b2, r2) => some (Char.ofNat ((b - 0xC0) * 64 + b2), r2)
            | none => none
          else if b < 0xF0 then
            match contByte? r with
            | some (b2, r2) =>
              match contByte? r2 with
              | some (b3, r3) =>
                let v := (b - 0xE0) * 4096 + b2 * 64 + b3
                if v < 0x800 then none
                else if 0xD800 ≤ v ∧ v ≤ 0xDFFF then none
                else some (Char.ofNat v, r3)
              | none => none
            | none => none
          else if b < 0xF5 then
            match contByte? r with
            | some (b2, r2) =>
              match contByte? r2 with
              | some (b3, r3) =>
                match contByte? r3 with
                | some (b4, r4) =>
                  let v := (b - 0xF0) * 262144 + b2 * 4096 + b3 * 64 + b4
                  if v < 0x10000 then none
                  else if 0x10FFFF < v then none
                  else some (Char.ofNat v, r4)
                | none => none
              | none => none
            | none => none
          else none
        | _, _ => none
      | _ => none
    else some (c, rest)

theorem contByte?_length {s r : Str} {b : Nat} (h : contByte? s = some (b, r)) :
    r.length + 3 = s.length := by
  unfold contByte? at h
  split at h
  · split at h
    · try dsimp only at h
      split at h
      · simp only [Option.some.injEq, Prod.mk.injEq] at h
        obtain ⟨h1, h2⟩ := h
        subst h2
        simp
      · cases h
    · cases h
  · cases h


theorem decodeStep_length {s r : Str} {ch : Char}
    (h : decodeStep s = some (ch, r)) : r.length < s.length := by
  unfold decodeStep at h
  split at h
  · cases h
  · split at h
    · split at h
      · split at h
        · try dsimp only at h
          split at h
          · simp only [Option.some.injEq, Prod.mk.injEq] at h
            obtain ⟨h1, h2⟩ := h
            subst h2
            simp only [List.length_cons]
            omega
          · split at h
            · cases h
            · split at h
              · split at h
                next b2 r2 hcb =>
                  simp only [Option.some.injEq, Prod.mk.injEq] at h
                  obtain ⟨h1, h2⟩ := h
                  subst h2
                  have l1 := contByte?_length hcb
                  simp only [List.length_cons]
                  omega
                next => cases h
              · split at h
                · split at h
                  next b2 r2 hcb =>
                    split at h
                    next b3 r3 hcb2 =>
                      try dsimp only at h
                      split at h
                      · cases h
                      · split at h
                        · cases h
                        · simp only [Option.some.injEq, Prod.mk.injEq] at h
                          obtain ⟨h1, h2⟩ := h
                          subst h2
                          have l1 := contByte?_length hcb
                          have l2 := contByte?_length hcb2
                          simp only [List.length_cons]
                          omega
                    next => cases h
                  next => cases h
                · split at h
                  · split at h
                    next b2 r2 hcb =>
                      split at h
                      next b3 r3 hcb2 =>
                        split at h
                        next b4 r4 hcb3 =>
                          try dsimp only at h
                          split at h
                          · cases h
                          · split at h
                            · cases h
                            · simp only [Option.some.injEq, Prod.mk.injEq] at h
                              obtain ⟨h1, h2⟩ := h
                              subst h2
                              have l1 := contByte?_length hcb
                              have l2 := contByte?_length hcb2
                              have l3 := contByte?_length hcb3
                              simp only [List.length_cons]
                              omega
                        next => cases h
                      next => cases h
                    next => cases h
                  · cases h
        · cases h
      · cases h
    · simp only [Option.some.injEq, Prod.mk.injEq] at h
      obtain ⟨h1, h2⟩ := h
      subst h2
      simp

/-- Driver for `decodeStep`.  The fuel argument only bounds the recursion
so that the definition is structural (and hence kernel-evaluable); by
`decodeStep_length` every step consumes at least one character, so fuel
equal to the input length never runs out. -/
def decodeLoop : Nat → Str → Option Str
  | _, [] => some []
  | 0, _ :: _ => none
  | Nat.succ fuel, c :: rest =>
    match decodeStep (c :: rest) with
    | some (ch, r) => (decodeLoop fuel r).map (fun t => ch :: t)
    | none => none

/-- Model of the platform builtin `decodeURIComponent`: `none` models a
thrown `URIError`. -/
def decodeURIComponentOpt (s : Str) : Option Str := decodeLoop s.length s

/-- `NgCookieService.safeDecodeURIComponent`: `decodeURIComponent` wrapped in
`try`/`catch`, returning the input unchanged when decoding throws. -/
def safeDecodeURIComponent (s : Str) : Str :=
  (decodeURIComponentOpt s).getD s

/-! ### Name Matcher (`getCookieRegExp` and the semantics of the regular
expression it returns).

The source builds `new RegExp('(?:^' + e + '|;\\s*' + e + ')=(.*?)(?:;|$)', 'g')`
where `e` is the name with the characters `[ ] { } ( ) | = ; + ? , . * ^ $`
backslash-escaped.  Note the only flag passed to the cookie regular
expression is `g`; the `gi` flags in the source sit on the `String.replace`
call that performs the escaping, where the `i` flag has no effect.  The
matcher below implements exactly this pattern: a first match is searched
left to right; at position 0 the `^e` alternative is tried first; at a `;`
the `;\s*e` alternative consumes whitespace greedily with backtracking; the
lazy capture `(.*?)(?:;|$)` ends at the first following `;` or at the end
of the string, and fails when it reaches a line terminator first, because
`.` without the `s` flag does not match line terminators; a failed capture
makes the whole attempt at that position fail, and scanning continues.
`check` passes the percent-encoded name, which
contains no backslash, so every escape in the pattern is an identity escape
(`regexLiteral` recovers the literal characters). -/

/-- The characters escaped by `getCookieRegExp`. -/
def regexSpecials : Str :=
  ['[', ']', '\x7b', '\x7d', '(', ')', '|', '=', ';', '+', '?', ',', '.',
   '*', '^', '$']

/-- `NgCookieService.getCookieRegExp`: the name part of the pattern, with
the special characters backslash-escaped (`name.replace(/([\[\]\{\}\(\)\|\=\;\+\?\,\.\*\^\$])/gi, '\\$1')`). -/
def getCookieRegExp (name : Str) : Str :=
  name.flatMap (fun c => if c ∈ regexSpecials then ['\\', c] else [c])

/-- Literal characters matched by an escaped pattern fragment: each
backslash escape in the output of `getCookieRegExp` is an identity escape,
so dropping the backslashes recovers the matched literal. -/
def regexLiteral : Str → Str
  | [] => []
  | c :: r =>
    if c = '\\' then
      match r with
      | c2 :: r2 => c2 :: regexLiteral r2
      | [] => []
    else c :: regexLiteral r

/-- JavaScript `\s` character class (ECMA-262 WhiteSpace and LineTerminator). -/
def isJsSpace (c : Char) : Bool :=
  c.toNat = 0x20 || (0x9 ≤ c.toNat && c.toNat ≤ 0xD) || c.toNat = 0xA0 ||
  c.toNat = 0x1680 || (0x2000 ≤ c.toNat && c.toNat ≤ 0x200A) ||
  c.toNat = 0x2028 || c.toNat = 0x2029 || c.toNat = 0x202F ||
  c.toNat = 0x205F || c.toNat = 0x3000 || c.toNat = 0xFEFF

/-- Boolean prefix test on the character-list model. -/
def isPrefixL : Str → Str → Bool
  | [], _ => true
  | _ :: _, [] => false
  | a :: as, b :: bs => if a = b then isPrefixL as bs else false

/-- ECMA-262 LineTerminator characters; `.` in a regular expression
without the `s` flag matches any character except these. -/
def isLineTerm (c : Char) : Bool :=
  c = '\n' || c = '\r' || c = '\u2028' || c = '\u2029'

/-- The lazy capture `(.*?)(?:;|$)`: being lazy, the tail `(?:;|$)` is
tried before consuming a character, so the capture ends at the first `;`
or at the end of the string; otherwise one `.` is consumed, and since `.`
does not match line terminators the attempt fails (`none`) when a line
terminator is reached before a `;` or the end. -/
def captureVal? : Str → Option Str
  | [] => some []
  | c :: r =>
    if c = ';' then some []
    else if isLineTerm c then none
    else (captureVal? r).map (fun t => c :: t)

/-- Tries to match `ename=(.*?)(?:;|$)` at the current position and
returns the capture group; fails when the literal `ename=` prefix does not
match or the capture cannot complete. -/
def tryName (ename : Str) (t : Str) : Option Str :=
  if isPrefixL (ename ++ ['=']) t then captureVal? (t.drop (ename.length + 1))
  else none

/-- The `\s*ename=` part after a `;`: whitespace is consumed greedily, with
backtracking one character at a time (deepest recursive attempt first). -/
def wsMatch (ename : Str) : Str → Option Str
  | [] => tryName ename []
  | c :: r =>
    if isJsSpace c then
      match wsMatch ename r with
      | some cap => some cap
      | none => tryName ename (c :: r)
    else tryName ename (c :: r)

/-- Scans left to right for a `;` at which `;\s*ename=` matches. -/
def scanSemi (ename : Str) : Str → Option Str
  | [] => none
  | c :: r =>
    if c = ';' then
      match wsMatch ename r with
      | some cap => some cap
      | none => scanSemi ename r
    else scanSemi ename r

/-- First match of `(?:^ename|;\s*ename)=(.*?)(?:;|$)` against `s`
(`ename` taken literally), returning the capture group.  `RegExp.test`
corresponds to `isSome`, a single fresh `exec` to the value itself. -/
def regexFirstCapture (ename s : Str) : Option Str :=
  match tryName ename s with
  | some cap => some cap
  | none => scanSemi ename s

/-! ### Cookie String Parser (`check`, `get`, `getAll`).

The service methods read the raw cookie string through `this.cookie()`;
here that string is the explicit `raw` argument. -/

/-- `NgCookieService.check`: percent-encode the name, build the regular
expression, and test it against the raw cookie string. -/
def check (name raw : Str) : Bool :=
  (regexFirstCapture (regexLiteral (getCookieRegExp (encodeURIComponent name)))
    raw).isSome

/-- `NgCookieService.get`: if `check` succeeds, run the regular expression
once and decode the first capture group; empty or missing captures and
failed checks give the empty string.  (Named `getOne` — the source's `get`
— because a bare `get` collides with `MonadState.get`.) -/
def getOne (name raw : Str) : Str :=
  if check name raw then
    match regexFirstCapture
        (regexLiteral (getCookieRegExp (encodeURIComponent name))) raw with
    | none => []
    | some cap => if cap = [] then [] else safeDecodeURIComponent cap
  else []

/-- JavaScript `String.prototype.split` with a single-character separator:
splits at every occurrence, yielding at least one (possibly empty) piece. -/
def splitOnChar (sep : Char) : Str → List Str
  | [] => [[]]
  | c :: r =>
    if c = sep then [] :: splitOnChar sep r
    else
      match splitOnChar sep r with
      | h :: t => (c :: h) :: t
      | [] => [[c]]

/-- `cookieName.replace(/^ /, '')`: strips exactly one leading space. -/
def stripOneSpace : Str → Str
  | ' ' :: r => r
  | l => l

/-- Assignment `obj[k] = v` on a plain JavaScript object used as a map:
overwrites in place when the key exists, appends otherwise. -/
def objSet (m : List (Str × Str)) (k v : Str) : List (Str × Str) :=
  if m.any (fun p => p.1 == k) then
    m.map (fun p => if p.1 == k then (p.1, v) else p)
  else m ++ [(k, v)]

/-- Property lookup `obj[k]`. -/
def objGet (m : List (Str × Str)) (k : Str) : Option Str :=
  (m.find? (fun p => p.1 == k)).map (fun p => p.2)

/-- Body of the `forEach` callback in `getAll`: destructure the fragment
through `split('=')` into its first two pieces (a fragment without `=`
leaves `cookieValue` undefined, which `decodeURIComponent` coerces to the
string `"undefined"`); strip one leading space from the name; decode both;
assign into the result object. -/
def getAllStep (m : List (Str × Str)) (frag : Str) : List (Str × Str) :=
  let parts := splitOnChar '=' frag
  let cookieName := parts.headD []
  let cookieValue := parts[1]?
  objSet m (safeDecodeURIComponent (stripOneSpace cookieName))
    (safeDecodeURIComponent (match cookieValue with
      | some v => v
      | none => str "undefined"))

/-- `NgCookieService.getAll`: for a non-empty raw string, split it on `;`
and fold every fragment through `getAllStep` into an initially empty
object. -/
def getAll (raw : Str) : List (Str × Str) :=
  if raw = [] then []
  else (splitOnChar ';' raw).foldl getAllStep []

/-- Substring-occurrence test, used to state which attribute tokens appear
in a built cookie string. -/
def hasSub (pat : Str) : Str → Bool
  | [] => isPrefixL pat []
  | c :: r => isPrefixL pat (c :: r) || hasSub pat r

/-! ### Cookie String Builder (`set`, both overloads). -/

/-- The `sameSite` attribute values. -/
inductive SameSite
  | Lax
  | Strict
  | None
deriving DecidableEq

/-- Serialization of a `SameSite` value, as interpolated by the source. -/
def SameSite.toStr : SameSite → Str
  | .Lax => str "Lax"
  | .Strict => str "Strict"
  | .None => str "None"

/-- `expires`: a JavaScript number (days from now) or a `Date`, the latter
modelled by its millisecond timestamp. -/
inductive ExpiresVal
  | days (n : Int)
  | date (ms : Int)
deriving DecidableEq

/-- The attributes object accepted by `set` (all fields optional;
`none` models an absent/`undefined` field). -/
structure CookieOptions where
  expires : Option ExpiresVal
  path : Option Str
  domain : Option Str
  secure : Option Bool
  sameSite : Option SameSite
  partitioned : Option Bool
deriving DecidableEq

/-- The empty attributes object `{}`. -/
def emptyOptions : CookieOptions := ⟨none, none, none, none, none, none⟩

/-- The third positional argument of `set`: a number, a `Date`, or an
attributes object (`undefined` is modelled by `Option` around this type). -/
inductive ExpiresOrOptions
  | num (n : Int)
  | date (ms : Int)
  | opts (o : CookieOptions)

/-- Serialization path of `NgCookieService.set` (lines 212-257): builds the
cookie string from a resolved attributes object and reports whether the
`secure`/`sameSite=None` warning fired.  JavaScript truthiness is applied
exactly as in the source: `options.expires` is falsy for the number `0`,
`options.path`/`options.domain` are falsy for the empty string, and
`options.secure`/`options.partitioned` are truthy only for `true`.
`toUTCString` is the uninterpreted parameter `fmt` on millisecond
timestamps; `now` is `new Date().getTime()`. -/
def setBody (name value : Str) (options : CookieOptions) (now : Int)
    (fmt : Int → Str) : Str × Bool :=
  let cs1 := encodeURIComponent name ++ str "=" ++ encodeURIComponent value ++
    str ";"
  let cs2 := cs1 ++ (match options.expires with
    | some (.days n) =>
      if n = 0 then [] else str "expires=" ++ fmt (now + n * 86400000) ++ str ";"
    | some (.date t) => str "expires=" ++ fmt t ++ str ";"
    | none => [])
  let cs3 := cs2 ++ (match options.path with
    | some p => if p.isEmpty then [] else str "path=" ++ p ++ str ";"
    | none => [])
  let cs4 := cs3 ++ (match options.domain with
    | some d => if d.isEmpty then [] else str "domain=" ++ d ++ str ";"
    | none => [])
  let warn := options.secure == some false && options.sameSite == some SameSite.None
  let secureEff := if warn then some true else options.secure
  let cs5 := cs4 ++ (if secureEff == some true then str "secure;" else [])
  let ss := match options.sameSite with
    | some s => s
    | none => SameSite.Lax
  let cs6 := cs5 ++ str "sameSite=" ++ ss.toStr ++ str ";"
  let cs7 := cs6 ++ (if options.partitioned == some true then str "Partitioned;"
    else [])
  (cs7, warn)

namespace NgCookieService

/-- `NgCookieService.set`, unified overload entry (lines 181-257 before the
write): when the third argument is a number or a `Date`, or `path`,
`domain`, `secure` or `sameSite` is truthy, the positional arguments are
collected into an options object (note the condition does not inspect
`partitioned`) and the body runs on it; otherwise the body runs directly on
the third argument if it is an (always truthy) object, or on `{}`.  A call
passing an options object together with truthy positional attributes is
outside the declared overloads and not modelled. -/
def set (name value : Str) (eoo : Option ExpiresOrOptions)
    (path domain : Option Str) (secure : Option Bool)
    (sameSite : Option SameSite) (partitioned : Option Bool)
    (now : Int) (fmt : Int → Str) : Str × Bool :=
  let isNumOrDate := match eoo with
    | some (.num _) => true
    | some (.date _) => true
    | _ => false
  let truthyStr := fun (o : Option Str) => match o with
    | some s => !s.isEmpty
    | none => false
  if isNumOrDate || truthyStr path || truthyStr domain
      || secure == some true || sameSite.isSome then
    setBody name value
      ⟨(match eoo with
        | some (.num n) => some (ExpiresVal.days n)
        | some (.date t) => some (ExpiresVal.date t)
        | _ => none),
       path, domain, secure,
       some (sameSite.getD SameSite.Lax),
       partitioned⟩ now fmt
  else
    setBody name value
      (match eoo with
       | some (.opts o) => o
       | _ => emptyOptions) now fmt

end NgCookieService

/-! ### Context Dispatcher, server side.

`cookie()` returns `this.request?.headers.get('cookie') ?? ''` on the
server; a missing request or missing `cookie` header is collapsed into
`reqCookie = none`.  The write path is
`(this.responseInit?.headers as Headers)?.set('Set-Cookie', cookieString)`;
a missing response-headers object makes the write a no-op.  Fetch `Headers`
normalizes names case-insensitively, but every write in the source uses the
same literal `'Set-Cookie'`, so names are compared verbatim here. -/

/-- Server-side request/response pair backing one service instance. -/
structure ServerState where
  reqCookie : Option Str
  respHeaders : Option (List (Str × Str))

/-- `cookie()` in the server context. -/
def serverCookie (st : ServerState) : Str := st.reqCookie.getD []

/-- Fetch `Headers.prototype.set`: replaces the value of an existing header
name, appends otherwise. -/
def headersSet (hs : List (Str × Str)) (n v : Str) : List (Str × Str) :=
  if hs.any (fun p => p.1 == n) then
    hs.map (fun p => if p.1 == n then (p.1, v) else p)
  else hs ++ [(n, v)]

/-- The server write path of `set` (lines 259-264, else branch). -/
def serverWrite (cookieString : Str) (st : ServerState) : ServerState :=
  ⟨st.reqCookie,
   st.respHeaders.map (fun hs => headersSet hs (str "Set-Cookie") cookieString)⟩

/-- A full `set` call in the server context: build the cookie string, then
write it through `Headers.set`. -/
def setServer (st : ServerState) (name value : Str)
    (eoo : Option ExpiresOrOptions) (path domain : Option Str)
    (secure : Option Bool) (sameSite : Option SameSite)
    (partitioned : Option Bool) (now : Int) (fmt : Int → Str) : ServerState :=
  serverWrite
    (NgCookieService.set name value eoo path domain secure sameSite
      partitioned now fmt).1 st

/-! ### Facts about percent encoding and decoding. -/

theorem char_toNat_valid (c : Char) :
    c.toNat < 0xD800 ∨ (0xDFFF < c.toNat ∧ c.toNat < 0x110000) := by
  rcases c.valid with h | ⟨h1, h2⟩
  · exact Or.inl (UInt32.toNat_lt_of_lt (by decide) h)
  · exact Or.inr ⟨UInt32.lt_toNat_of_lt (by decide) h1,
      UInt32.toNat_lt_of_lt (by decide) h2⟩

theorem char_toNat_lt (c : Char) : c.toNat < 0x110000 := by
  rcases char_toNat_valid c with h | ⟨_, h⟩ <;> omega

theorem utf8Bytes_lt (c : Char) : ∀ b ∈ utf8Bytes c, b < 256 := by
  intro b hb
  have hv := char_toNat_lt c
  simp only [utf8Bytes] at hb
  split at hb
  · simp at hb; omega
  · split at hb
    · simp at hb; rcases hb with h | h <;> omega
    · split at hb
      · simp at hb; rcases hb with h | h | h <;> omega
      · simp at hb; rcases hb with h | h | h | h <;> omega

theorem hexVal?_hexDigitChar (n : Nat) (h : n < 16) :
    hexVal? (hexDigitChar n) = some n := by
  interval_cases n <;> decide

theorem isUnreserved_hexDigitChar (n : Nat) (h : n < 16) :
    isUnreserved (hexDigitChar n) = true := by
  interval_cases n <;> decide

theorem mem_encodeURIComponent (c' : Char) (s : Str)
    (h : c' ∈ encodeURIComponent s) : isUnreserved c' = true ∨ c' = '%' := by
  simp only [encodeURIComponent, List.mem_flatMap] at h
  obtain ⟨c, hc, hmem⟩ := h
  unfold encChar at hmem
  split at hmem
  next hu => simp at hmem; subst hmem; exact Or.inl hu
  next hu =>
    simp only [List.mem_flatMap] at hmem
    obtain ⟨b, hb, hmem⟩ := hmem
    have hblt : b < 256 := utf8Bytes_lt c b hb
    unfold encByte at hmem
    simp at hmem
    rcases hmem with h | h | h
    · subst h; exact Or.inr rfl
    · subst h; exact Or.inl (isUnreserved_hexDigitChar _ (by omega))
    · subst h; exact Or.inl (isUnreserved_hexDigitChar _ (by omega))

theorem notMem_encodeURIComponent (c' : Char) (h1 : isUnreserved c' = false)
    (h2 : c' ≠ '%') (s : Str) : c' ∉ encodeURIComponent s := by
  intro h
  rcases mem_encodeURIComponent c' s h with h3 | h3
  · rw [h1] at h3; cases h3
  · exact h2 h3

theorem decodeStep_encChar (c : Char) (t : Str) :
    decodeStep (encChar c ++ t) = some (c, t) := by
  have hdiv : ∀ x : Nat, 16 * (x / 16) + x % 16 = x := fun x => by omega
  have hcont : ∀ (m : Nat) (u : Str), m < 64 →
      contByte? ('%' :: hexDigitChar ((0x80 + m) / 16) ::
        hexDigitChar ((0x80 + m) % 16) :: u) = some (m, u) := by
    intro m u hm
    simp only [contByte?]
    rw [hexVal?_hexDigitChar _ (by omega), hexVal?_hexDigitChar _ (by omega)]
    dsimp only
    rw [hdiv]
    rw [if_pos (by omega)]
    have he : 0x80 + m - 0x80 = m := by omega
    rw [he]
  unfold encChar
  split
  next hu =>
    have hc : c ≠ '%' := by
      intro h; subst h; exact absurd hu (by decide)
    simp [decodeStep, hc]
  next hu =>
    have hv := char_toNat_valid c
    unfold utf8Bytes
    dsimp only
    by_cases h1 : c.toNat < 0x80
    · rw [if_pos h1]
      simp only [List.flatMap_cons, List.flatMap_nil, List.append_nil, encByte,
        List.cons_append, List.nil_append]
      simp only [decodeStep, reduceIte]
      rw [hexVal?_hexDigitChar _ (by omega), hexVal?_hexDigitChar _ (by omega)]
      dsimp only
      rw [hdiv]
      rw [if_pos h1]
      simp
    · rw [if_neg h1]
      by_cases h2 : c.toNat < 0x800
      · rw [if_pos h2]
        simp only [List.flatMap_cons, List.flatMap_nil, List.append_nil, encByte,
          List.cons_append, List.nil_append]
        simp only [decodeStep, reduceIte]
        rw [hexVal?_hexDigitChar _ (by omega), hexVal?_hexDigitChar _ (by omega)]
        dsimp only
        rw [hdiv]
        rw [if_neg (by omega), if_neg (by omega), if_pos (by omega)]
        rw [hcont _ _ (by omega)]
        dsimp only
        have he : (0xC0 + c.toNat / 64 - 0xC0) * 64 + c.toNat % 64 = c.toNat := by
          omega
        rw [he, Char.ofNat_toNat]
      · rw [if_neg h2]
        by_cases h3 : c.toNat < 0x10000
        · rw [if_pos h3]
          simp only [List.flatMap_cons, List.flatMap_nil, List.append_nil, encByte,
            List.cons_append, List.nil_append]
          simp only [decodeStep, reduceIte]
          rw [hexVal?_hexDigitChar _ (by omega), hexVal?_hexDigitChar _ (by omega)]
          dsimp only
          rw [hdiv]
          rw [if_neg (by omega), if_neg (by omega), if_neg (by omega),
            if_pos (by omega)]
          rw [hcont _ _ (by omega)]
          dsimp only
          rw [hcont _ _ (by omega)]
          dsimp only
          rw [if_neg (by omega), if_neg (by rcases hv with h | ⟨ha, hb⟩ <;> omega)]
          have he : (0xE0 + c.toNat / 4096 - 0xE0) * 4096 + c.toNat / 64 % 64 * 64 +
              c.toNat % 64 = c.toNat := by omega
          rw [he, Char.ofNat_toNat]
        · rw [if_neg h3]
          have h4 : c.toNat < 0x110000 := char_toNat_lt c
          simp only [List.flatMap_cons, List.flatMap_nil, List.append_nil, encByte,
            List.cons_append, List.nil_append]
          simp only [decodeStep, reduceIte]
          rw [hexVal?_hexDigitChar _ (by omega), hexVal?_hexDigitChar _ (by omega)]
          dsimp only
          rw [hdiv]
          rw [if_neg (by omega), if_neg (by omega), if_neg (by omega),
            if_neg (by omega), if_pos (by omega)]
          rw [hcont _ _ (by omega)]
          dsimp only
          rw [hcont _ _ (by omega)]
          dsimp only
          rw [hcont _ _ (by omega)]
          dsimp only
          rw [if_neg (by omega), if_neg (by omega)]
          have he : (0xF0 + c.toNat / 262144 - 0xF0) * 262144 +
              c.toNat / 4096 % 64 * 4096 + c.toNat / 64 % 64 * 64 +
              c.toNat % 64 = c.toNat := by omega
          rw [he, Char.ofNat_toNat]

theorem encChar_ne_nil (c : Char) : encChar c ≠ [] := by
  unfold encChar
  split
  · simp
  · unfold utf8Bytes
    dsimp only
    split
    · simp [encByte]
    · split
      · simp [encByte]
      · split
        · simp [encByte]
        · simp [encByte]

theorem encodeURIComponent_eq_nil {v : Str} (h : encodeURIComponent v = []) :
    v = [] := by
  cases v with
  | nil => rfl
  | cons c cs =>
    exfalso
    simp only [encodeURIComponent, List.flatMap_cons] at h
    rcases List.append_eq_nil.mp h with ⟨h1, h2⟩
    exact encChar_ne_nil c h1

theorem decodeLoop_enc (fuel : Nat) :
    ∀ v : Str, (encodeURIComponent v).length ≤ fuel →
      decodeLoop fuel (encodeURIComponent v) = some v := by
  induction fuel with
  | zero =>
    intro v h
    have h0 : encodeURIComponent v = [] :=
      List.eq_nil_of_length_eq_zero (Nat.le_zero.mp h)
    rw [encodeURIComponent_eq_nil h0]
    rfl
  | succ fuel ih =>
    intro v h
    cases v with
    | nil => rfl
    | cons c cs =>
      have henc : encodeURIComponent (c :: cs) = encChar c ++ encodeURIComponent cs :=
        rfl
      obtain ⟨d, ds, hds⟩ : ∃ d ds,
          encChar c ++ encodeURIComponent cs = d :: ds := by
        cases hE : encChar c with
        | nil => exact absurd hE (encChar_ne_nil c)
        | cons d ds => exact ⟨d, ds ++ encodeURIComponent cs, by simp⟩
      have hlen : (encodeURIComponent cs).length ≤ fuel := by
        have h1 : 0 < (encChar c).length :=
          List.length_pos.mpr (encChar_ne_nil c)
        rw [henc] at h
        rw [List.length_append] at h
        omega
      rw [henc, hds]
      show (match decodeStep (d :: ds) with
        | some (ch, r) => (decodeLoop fuel r).map (fun t => ch :: t)
        | none => none) = some (c :: cs)
      rw [← hds, decodeStep_encChar]
      dsimp only
      rw [ih cs hlen]
      rfl

theorem decodeURIComponentOpt_enc (v : Str) :
    decodeURIComponentOpt (encodeURIComponent v) = some v :=
  decodeLoop_enc _ v (Nat.le_refl _)

theorem safeDecodeURIComponent_enc (v : Str) :
    safeDecodeURIComponent (encodeURIComponent v) = v := by
  unfold safeDecodeURIComponent
  rw [decodeURIComponentOpt_enc]
  rfl


/-! ### Facts about the matcher and the parser. -/

theorem semi_notMem_enc (s : Str) : ';' ∉ encodeURIComponent s :=
  notMem_encodeURIComponent ';' (by decide) (by decide) s

theorem eqsign_notMem_enc (s : Str) : '=' ∉ encodeURIComponent s :=
  notMem_encodeURIComponent '=' (by decide) (by decide) s

theorem space_notMem_enc (s : Str) : ' ' ∉ encodeURIComponent s :=
  notMem_encodeURIComponent ' ' (by decide) (by decide) s

theorem backslash_notMem_enc (s : Str) : '\\' ∉ encodeURIComponent s :=
  notMem_encodeURIComponent '\\' (by decide) (by decide) s

theorem lineTerm_notMem_enc (c : Char) (hc : isLineTerm c = true) (s : Str) :
    c ∉ encodeURIComponent s := by
  simp only [isLineTerm, Bool.or_eq_true, decide_eq_true_eq] at hc
  rcases hc with ((h | h) | h) | h <;>
    (subst h; exact notMem_encodeURIComponent _ (by decide) (by decide) s)

theorem enc_lineTerm_false (s : Str) :
    ∀ c ∈ encodeURIComponent s, isLineTerm c = false := by
  intro c hc
  cases h : isLineTerm c with
  | false => rfl
  | true => exact absurd hc (lineTerm_notMem_enc c h s)

theorem regexLiteral_getCookieRegExp (s : Str) (h : '\\' ∉ s) :
    regexLiteral (getCookieRegExp s) = s := by
  induction s with
  | nil => rfl
  | cons c cs ih =>
    simp only [List.mem_cons, not_or] at h
    obtain ⟨h1, h2⟩ := h
    have hgc : getCookieRegExp (c :: cs) =
        (if c ∈ regexSpecials then ['\\', c] else [c]) ++ getCookieRegExp cs := by
      simp [getCookieRegExp]
    rw [hgc]
    by_cases hc : c ∈ regexSpecials
    · rw [if_pos hc]
      simp only [List.cons_append, List.nil_append]
      rw [regexLiteral.eq_def]
      simp only [reduceIte]
      exact congrArg (fun t => c :: t) (ih h2)
    · rw [if_neg hc]
      simp only [List.cons_append, List.nil_append]
      have h1' : ¬(c = '\\') := fun hh => h1 hh.symm
      rw [regexLiteral.eq_def]
      simp only [h1', reduceIte]
      exact congrArg (fun t => c :: t) (ih h2)

theorem isPrefixL_append (a b : Str) : isPrefixL a (a ++ b) = true := by
  induction a with
  | nil => rfl
  | cons c cs ih => simp [isPrefixL, ih]

theorem tryName_self (ename rest : Str) :
    tryName ename (ename ++ '=' :: rest) = captureVal? rest := by
  have e1 : ename ++ '=' :: rest = (ename ++ ['=']) ++ rest := by simp
  unfold tryName
  rw [e1, isPrefixL_append, if_pos rfl]
  rw [List.drop_left' (by simp)]

theorem regexFirstCapture_self (ename rest cap : Str)
    (h : captureVal? rest = some cap) :
    regexFirstCapture ename (ename ++ '=' :: rest) = some cap := by
  unfold regexFirstCapture
  rw [tryName_self, h]

theorem captureVal?_no_semi (a : Str) (h : ';' ∉ a)
    (hl : ∀ c ∈ a, isLineTerm c = false) : captureVal? a = some a := by
  induction a with
  | nil => rfl
  | cons c cs ih =>
    simp only [List.mem_cons, not_or] at h
    obtain ⟨h1, h2⟩ := h
    have hlc : isLineTerm c = false := hl c (List.mem_cons_self c cs)
    have hlcs : ∀ x ∈ cs, isLineTerm x = false :=
      fun x hx => hl x (List.mem_cons_of_mem c hx)
    simp only [captureVal?]
    rw [if_neg (fun hh : c = ';' => h1 hh.symm), if_neg (by simp [hlc])]
    rw [ih h2 hlcs]
    rfl

theorem captureVal?_semi (a b : Str) (h : ';' ∉ a)
    (hl : ∀ c ∈ a, isLineTerm c = false) :
    captureVal? (a ++ ';' :: b) = some a := by
  induction a with
  | nil => simp [captureVal?]
  | cons c cs ih =>
    simp only [List.mem_cons, not_or] at h
    obtain ⟨h1, h2⟩ := h
    have hlc : isLineTerm c = false := hl c (List.mem_cons_self c cs)
    have hlcs : ∀ x ∈ cs, isLineTerm x = false :=
      fun x hx => hl x (List.mem_cons_of_mem c hx)
    simp only [List.cons_append, captureVal?]
    rw [if_neg (fun hh : c = ';' => h1 hh.symm), if_neg (by simp [hlc])]
    simp only [List.append_eq]
    rw [ih h2 hlcs]
    rfl

theorem check_encPrefix (n rest cap : Str) (h : captureVal? rest = some cap) :
    check n (encodeURIComponent n ++ '=' :: rest) = true := by
  unfold check
  rw [regexLiteral_getCookieRegExp _ (backslash_notMem_enc n)]
  rw [regexFirstCapture_self _ _ _ h]
  rfl

theorem get_encPrefix (n v tail : Str)
    (htail : tail = [] ∨ ∃ b, tail = ';' :: b) :
    getOne n (encodeURIComponent n ++ '=' :: (encodeURIComponent v ++ tail)) = v := by
  have hcap : captureVal? (encodeURIComponent v ++ tail) =
      some (encodeURIComponent v) := by
    rcases htail with h | ⟨b, h⟩
    · subst h
      rw [List.append_nil]
      exact captureVal?_no_semi _ (semi_notMem_enc v) (enc_lineTerm_false v)
    · subst h
      exact captureVal?_semi _ _ (semi_notMem_enc v) (enc_lineTerm_false v)
  unfold getOne
  rw [check_encPrefix n _ _ hcap]
  rw [if_pos rfl]
  rw [regexLiteral_getCookieRegExp _ (backslash_notMem_enc n)]
  rw [regexFirstCapture_self _ _ _ hcap]
  dsimp only
  by_cases he : encodeURIComponent v = []
  · rw [if_pos he]
    exact (encodeURIComponent_eq_nil he).symm
  · rw [if_neg he]
    exact safeDecodeURIComponent_enc v

theorem splitOnChar_not_mem (sep : Char) (l : Str) (h : sep ∉ l) :
    splitOnChar sep l = [l] := by
  induction l with
  | nil => rfl
  | cons c cs ih =>
    simp only [List.mem_cons, not_or] at h
    obtain ⟨h1, h2⟩ := h
    simp only [splitOnChar]
    rw [if_neg (fun hh : c = sep => h1 hh.symm)]
    rw [ih h2]

theorem splitOnChar_append (sep : Char) (a b : Str) (h : sep ∉ a) :
    splitOnChar sep (a ++ sep :: b) = a :: splitOnChar sep b := by
  induction a with
  | nil =>
    simp [splitOnChar]
  | cons c cs ih =>
    simp only [List.mem_cons, not_or] at h
    obtain ⟨h1, h2⟩ := h
    simp only [List.cons_append, splitOnChar]
    rw [if_neg (fun hh : c = sep => h1 hh.symm)]
    simp only [List.append_eq]
    rw [ih h2]

theorem stripOneSpace_of_not_mem (l : Str) (h : ' ' ∉ l) :
    stripOneSpace l = l := by
  unfold stripOneSpace
  split
  · simp at h
  · rfl

theorem objSet_nil (k v : Str) : objSet [] k v = [(k, v)] := by
  simp [objSet]

theorem objSet_single_same (k v1 v2 : Str) :
    objSet [(k, v1)] k v2 = [(k, v2)] := by
  simp [objSet]

theorem objGet_single (k v : Str) : objGet [(k, v)] k = some v := by
  simp [objGet]

theorem getAllStep_split (m : List (Str × Str)) (a rest b : Str)
    (others : List Str) (ha : '=' ∉ a)
    (hrest : splitOnChar '=' rest = b :: others) :
    getAllStep m (a ++ '=' :: rest) =
      objSet m (safeDecodeURIComponent (stripOneSpace a))
        (safeDecodeURIComponent b) := by
  unfold getAllStep
  rw [splitOnChar_append '=' a rest ha, hrest]
  simp

/-! ### Claim theorems. -/

/-- C1 counterexample: the claim says `check` matches the cookie name
case-insensitively, so `check "foo"` should return `true` on the raw string
`"FOO=bar"`; the matcher produced by `getCookieRegExp` carries only the `g`
flag, and `check "foo" "FOO=bar"` is in fact `false`. -/
theorem c1_counterexample : check (str "foo") (str "FOO=bar") = false := by
  decide

/-- C1 (amended): the matcher produced by `getCookieRegExp` matches the
name token case-sensitively: `check` succeeds whenever the raw string
carries `name=value` in identical letter case and the lazy value capture
can complete — the encoded value is followed by `;` or by the end of the
string (first two parts) — and can fail when the name occurs only in a
different letter case (fifth part).  The capture cannot cross a line
terminator, since the regular expression is created without the `s` flag
(sixth part, matching the real `check('a')` on `"a=\n"`). -/
theorem c1_case_sensitive_matching :
    (∀ n v : Str,
      check n (encodeURIComponent n ++ '=' :: encodeURIComponent v) = true) ∧
    (∀ n v rest : Str,
      check n (encodeURIComponent n ++ '=' ::
        (encodeURIComponent v ++ ';' :: rest)) = true) ∧
    check (str "foo") (str "foo=bar") = true ∧
    check (str "FOO") (str "FOO=bar") = true ∧
    check (str "foo") (str "FOO=bar") = false ∧
    check (str "a") (str "a=\n") = false :=
  ⟨fun n v => check_encPrefix n _ _
      (captureVal?_no_semi _ (semi_notMem_enc v) (enc_lineTerm_false v)),
   fun n v rest => check_encPrefix n _ _
      (captureVal?_semi _ _ (semi_notMem_enc v) (enc_lineTerm_false v)),
   by decide, by decide, by decide, by decide⟩

/-- C2 counterexample: the claim says `getAll` splits each fragment on the
first `=` only, binding the name to the entire remainder, so
`getAll "a=b=c"` should map `"a"` to `"b=c"`; the code destructures
`split('=')`, keeping only the first two pieces, and maps `"a"` to `"b"`. -/
theorem c2_counterexample :
    objGet (getAll (str "a=b=c")) (str "a") = some (str "b") ∧
    objGet (getAll (str "a=b=c")) (str "a") ≠ some (str "b=c") := by
  decide

/-- C2 (amended): `getAll` splits on `;`, splits each fragment on every
`=`, and keeps only the first two pieces, so a fragment `a=b=c` binds the
decoded name to the piece between the first and second `=` (the decoded
`b`), discarding the remainder. -/
theorem c2_first_two_segments (a b c : Str)
    (ha1 : ';' ∉ a) (hb1 : ';' ∉ b) (hc1 : ';' ∉ c)
    (ha2 : '=' ∉ a) (hb2 : '=' ∉ b) :
    objGet (getAll (a ++ '=' :: (b ++ '=' :: c)))
      (safeDecodeURIComponent (stripOneSpace a)) =
      some (safeDecodeURIComponent b) := by
  have hraw : (a ++ '=' :: (b ++ '=' :: c)) ≠ [] := by simp
  have hsemi : ';' ∉ (a ++ '=' :: (b ++ '=' :: c)) := by
    intro hmem
    simp only [List.mem_append, List.mem_cons] at hmem
    rcases hmem with h | h | h | h | h
    · exact ha1 h
    · exact absurd h (by decide)
    · exact hb1 h
    · exact absurd h (by decide)
    · exact hc1 h
  unfold getAll
  rw [if_neg hraw]
  rw [splitOnChar_not_mem ';' _ hsemi]
  dsimp only [List.foldl]
  rw [getAllStep_split [] a (b ++ '=' :: c) b (splitOnChar '=' c) ha2
    (splitOnChar_append '=' b c hb2)]
  rw [objSet_nil, objGet_single]

/-- C2 witness: the amended theorem evaluated at the fragment `x=y=z=w`. -/
theorem c2_witness :
    objGet (getAll (str "x" ++ '=' :: (str "y" ++ '=' :: str "z=w")))
      (safeDecodeURIComponent (stripOneSpace (str "x"))) =
      some (safeDecodeURIComponent (str "y")) :=
  c2_first_two_segments (str "x") (str "y") (str "z=w") (by decide)
    (by decide) (by decide) (by decide) (by decide)

/-- C3: two successive server-context `set` calls on the same
request/response pair.  The claim (and the spec) say the second write
appends, leaving both serialized cookie strings in the outgoing headers;
the code calls `Headers.set`, which replaces, so after the second call the
headers hold only the second cookie string (first conjunct), even though
the first write had stored the first one (second conjunct). -/
theorem c3_second_write_replaces_first :
    (setServer (setServer ⟨some [], some []⟩ (str "a") (str "1")
        none none none none none none 0 (fun _ => []))
        (str "b") (str "2") none none none none none none 0
        (fun _ => [])).respHeaders =
      some [(str "Set-Cookie", str "b=2;sameSite=Lax;")] ∧
    (setServer ⟨some [], some []⟩ (str "a") (str "1")
        none none none none none none 0 (fun _ => [])).respHeaders =
      some [(str "Set-Cookie", str "a=1;sameSite=Lax;")] := by
  decide

/-- C4: a positional `set` call whose only attribute-like argument is
`partitioned = true`.  The claim says such a call is normalized into the
attributes-object form and the built string contains `Partitioned;`; the
normalization condition omits `partitioned`, so the call is not normalized
and the flag is dropped (first two conjuncts), while the same attribute
passed in the object form is honoured (third conjunct). -/
theorem c4_positional_partitioned_dropped :
    (NgCookieService.set (str "a") (str "b") none none none none none (some true) 0
        (fun _ => [])).1 = str "a=b;sameSite=Lax;" ∧
    hasSub (str "Partitioned") ((NgCookieService.set (str "a") (str "b") none none none none
        none (some true) 0 (fun _ => [])).1) = false ∧
    (NgCookieService.set (str "a") (str "b")
        (some (ExpiresOrOptions.opts ⟨none, none, none, none, none, some true⟩))
        none none none none none 0 (fun _ => [])).1 =
      str "a=b;sameSite=Lax;Partitioned;" := by
  decide

/-- C5 counterexample: the claim says `expires` should be honoured
"including the number 0", with an `expires=<date>;` attribute in the built
string; the code tests `if (options.expires)`, for which the number `0` is
falsy, so no `expires` attribute is emitted. -/
theorem c5_counterexample :
    (NgCookieService.set (str "a") (str "b") (some (ExpiresOrOptions.num 0)) none none none
        none none 0 (fun _ => str "D")).1 = str "a=b;sameSite=Lax;" ∧
    hasSub (str "expires=") ((NgCookieService.set (str "a") (str "b")
        (some (ExpiresOrOptions.num 0)) none none none none none 0
        (fun _ => str "D")).1) = false := by
  decide

/-- C5 (amended): for a truthy `expires` — a nonzero number of days or a
`Date` — a number `d` is interpreted as days from now, the expiry instant
is `now + d*86400*1000` milliseconds formatted as an HTTP date, and the
built string contains `expires=<date>;`; a `Date` is formatted directly.
`expires = 0` is treated as absent (see the counterexample). -/
theorem c5_expires_truthy (name value : Str) (d t now : Int)
    (fmt : Int → Str) (hd : d ≠ 0) :
    (NgCookieService.set name value (some (ExpiresOrOptions.num d)) none none none none none
        now fmt).1 =
      encodeURIComponent name ++ str "=" ++ encodeURIComponent value ++
        str ";" ++ (str "expires=" ++ fmt (now + d * 86400000) ++ str ";") ++
        str "sameSite=" ++ str "Lax" ++ str ";" ∧
    (NgCookieService.set name value (some (ExpiresOrOptions.date t)) none none none none none
        now fmt).1 =
      encodeURIComponent name ++ str "=" ++ encodeURIComponent value ++
        str ";" ++ (str "expires=" ++ fmt t ++ str ";") ++
        str "sameSite=" ++ str "Lax" ++ str ";" := by
  constructor <;>
    simp [NgCookieService.set, setBody, hd, SameSite.toStr, List.append_assoc]

/-- C5 witness: the amended theorem applied at one day from epoch 0 with a
constant formatter. -/
theorem c5_witness :
    (NgCookieService.set (str "a") (str "b") (some (ExpiresOrOptions.num 1)) none none none
        none none 0 (fun _ => str "D")).1 = str "a=b;expires=D;sameSite=Lax;" := by
  rw [(c5_expires_truthy (str "a") (str "b") 1 5 0 (fun _ => str "D")
    (by decide)).1]
  decide

/-- C6: an attributes object with `secure: false` and `sameSite: 'None'`
has `secure` coerced to `true` with a warning (second component `true`):
the built string contains both `secure;` and `sameSite=None;`, and the
operation still produces the cookie string rather than failing. -/
theorem c6_secure_samesite_none_coercion (name value : Str) (now : Int)
    (fmt : Int → Str) :
    NgCookieService.set name value
        (some (ExpiresOrOptions.opts
          ⟨none, none, none, some false, some SameSite.None, none⟩))
        none none none none none now fmt =
      (encodeURIComponent name ++ str "=" ++ encodeURIComponent value ++
        str ";" ++ str "secure;" ++ str "sameSite=" ++ str "None" ++ str ";",
       true) := by
  simp [NgCookieService.set, setBody, SameSite.toStr, List.append_assoc]

/-- C7: round trip.  For names and values containing no `;` and no `=`
after percent-encoding, reading back the string built by `set` with the
empty attributes object returns exactly the original value. -/
theorem c7_roundtrip (n v : Str) (now : Int) (fmt : Int → Str)
    (h1 : ';' ∉ encodeURIComponent n) (h2 : '=' ∉ encodeURIComponent n)
    (h3 : ';' ∉ encodeURIComponent v) (h4 : '=' ∉ encodeURIComponent v) :
    getOne n ((NgCookieService.set n v (some (ExpiresOrOptions.opts emptyOptions))
        none none none none none now fmt).1) = v := by
  have e1 : str "=" = ['='] := rfl
  have e2 : str ";" = [';'] := rfl
  have hset : (NgCookieService.set n v (some (ExpiresOrOptions.opts emptyOptions))
      none none none none none now fmt).1 =
      encodeURIComponent n ++ '=' :: (encodeURIComponent v ++
        (';' :: (str "sameSite=" ++ (str "Lax" ++ str ";")))) := by
    simp [NgCookieService.set, setBody, emptyOptions, SameSite.toStr, e1, e2,
      List.append_assoc, List.singleton_append]
  rw [hset]
  exact get_encPrefix n v _ (Or.inr ⟨_, rfl⟩)

/-- C7 witness: the round trip evaluated at name `a` and value `b`. -/
theorem c7_witness :
    getOne (str "a") ((NgCookieService.set (str "a") (str "b")
        (some (ExpiresOrOptions.opts emptyOptions)) none none none none none 0
        (fun _ => [])).1) = str "b" :=
  c7_roundtrip (str "a") (str "b") 0 (fun _ => []) (by decide) (by decide)
    (by decide) (by decide)

/-- C8: in the server context a write never changes what a read returns:
after any `set` call the cookie read is unchanged, and reads always return
the immutable incoming Cookie header snapshot (empty when absent). -/
theorem c8_write_does_not_affect_read (st : ServerState) (name value : Str)
    (eoo : Option ExpiresOrOptions) (path domain : Option Str)
    (secure : Option Bool) (sameSite : Option SameSite)
    (partitioned : Option Bool) (now : Int) (fmt : Int → Str) :
    serverCookie (setServer st name value eoo path domain secure sameSite
        partitioned now fmt) = serverCookie st ∧
    serverCookie st = st.reqCookie.getD [] :=
  ⟨rfl, rfl⟩

/-- C9: the Value Decoder never propagates a decoding error: when
percent-decoding fails it returns the input unchanged, and on valid input
it returns the standard percent-decoding. -/
theorem c9_decode_failure_recovery (s : Str) :
    (decodeURIComponentOpt s = none → safeDecodeURIComponent s = s) ∧
    (∀ r : Str, decodeURIComponentOpt s = some r →
      safeDecodeURIComponent s = r) := by
  constructor
  · intro h
    unfold safeDecodeURIComponent
    rw [h]
    rfl
  · intro r h
    unfold safeDecodeURIComponent
    rw [h]
    rfl

/-- C9 witness: a raw `%` with no following hex digits fails to decode and
is returned unchanged. -/
theorem c9_witness :
    decodeURIComponentOpt (str "%") = none ∧
    safeDecodeURIComponent (str "%") = str "%" :=
  ⟨by decide, (c9_decode_failure_recovery (str "%")).1 (by decide)⟩

/-- C10: on a raw cookie string carrying the same name twice, `get`
returns the decoded value of the first occurrence (the regular expression
scans from the start) while `getAll` holds the decoded value of the last
occurrence (later object assignments overwrite earlier ones), so the two
can disagree whenever the two values differ. -/
theorem c10_get_first_getAll_last (n v1 v2 : Str) :
    getOne n (encodeURIComponent n ++ '=' :: (encodeURIComponent v1 ++
        (';' :: ' ' :: (encodeURIComponent n ++ '=' ::
          encodeURIComponent v2)))) = v1 ∧
    objGet (getAll (encodeURIComponent n ++ '=' :: (encodeURIComponent v1 ++
        (';' :: ' ' :: (encodeURIComponent n ++ '=' ::
          encodeURIComponent v2))))) n = some v2 := by
  constructor
  · exact get_encPrefix n v1 _ (Or.inr ⟨_, rfl⟩)
  · have hA : ';' ∉ (encodeURIComponent n ++ '=' :: encodeURIComponent v1) := by
      intro hmem
      simp only [List.mem_append, List.mem_cons] at hmem
      rcases hmem with h | h | h
      · exact semi_notMem_enc n h
      · exact absurd h (by decide)
      · exact semi_notMem_enc v1 h
    have hB : ';' ∉ (' ' :: (encodeURIComponent n ++ '=' ::
        encodeURIComponent v2)) := by
      intro hmem
      simp only [List.mem_append, List.mem_cons] at hmem
      rcases hmem with h | h | h | h
      · exact absurd h (by decide)
      · exact semi_notMem_enc n h
      · exact absurd h (by decide)
      · exact semi_notMem_enc v2 h
    have hshape : encodeURIComponent n ++ '=' :: (encodeURIComponent v1 ++
        (';' :: ' ' :: (encodeURIComponent n ++ '=' ::
          encodeURIComponent v2))) =
        (encodeURIComponent n ++ '=' :: encodeURIComponent v1) ++ ';' ::
          (' ' :: (encodeURIComponent n ++ '=' :: encodeURIComponent v2)) := by
      simp [List.append_assoc]
    have hraw : encodeURIComponent n ++ '=' :: (encodeURIComponent v1 ++
        (';' :: ' ' :: (encodeURIComponent n ++ '=' ::
          encodeURIComponent v2))) ≠ [] := by simp
    unfold getAll
    rw [if_neg hraw, hshape]
    rw [splitOnChar_append ';' _ _ hA, splitOnChar_not_mem ';' _ hB]
    dsimp only [List.foldl]
    rw [getAllStep_split [] (encodeURIComponent n) (encodeURIComponent v1)
      (encodeURIComponent v1) [] (eqsign_notMem_enc n)
      (splitOnChar_not_mem '=' _ (eqsign_notMem_enc v1))]
    rw [stripOneSpace_of_not_mem _ (space_notMem_enc n),
      safeDecodeURIComponent_enc n, safeDecodeURIComponent_enc v1,
      objSet_nil]
    have hBshape : (' ' :: (encodeURIComponent n ++ '=' ::
        encodeURIComponent v2)) =
        (' ' :: encodeURIComponent n) ++ '=' :: encodeURIComponent v2 := rfl
    rw [hBshape]
    have hA2 : '=' ∉ (' ' :: encodeURIComponent n) := by
      intro hmem
      rcases List.mem_cons.mp hmem with h | h
      · exact absurd h (by decide)
      · exact eqsign_notMem_enc n h
    rw [getAllStep_split [(n, v1)] (' ' :: encodeURIComponent n)
      (encodeURIComponent v2) (encodeURIComponent v2) [] hA2
      (splitOnChar_not_mem '=' _ (eqsign_notMem_enc v2))]
    rw [show stripOneSpace (' ' :: encodeURIComponent n) =
      encodeURIComponent n from rfl]
    rw [safeDecodeURIComponent_enc n, safeDecodeURIComponent_enc v2,
      objSet_single_same, objGet_single]
